import Mathlib

/-!
Verification of the splitmp3 audio-segmentation script.

The script probes a file's duration, detects silent periods by scanning the
diagnostic output of an external audio engine, plans cut points with a greedy
threshold algorithm, and writes one output file per planned segment.  The
definitions below are a shallow embedding of the corresponding Python
functions; times are modelled as rationals, engine invocations as explicit
inputs (diagnostic lines, exit status), and file-system side effects as the
list of engine commands the script would issue.
-/

/-- A detected silent period, the dictionary with keys start and end built by
find_silent_periods.  The end timestamp is called `stop` here because `end`
is reserved. -/
structure SilencePeriod where
  start : ℚ
  stop : ℚ
deriving DecidableEq

/-- Character-list prefix test. -/
def isPrefixList : List Char → List Char → Bool
  | [], _ => true
  | _ :: _, [] => false
  | a :: as, b :: bs => a == b && isPrefixList as bs

/-- Character-list infix test: the needle is a prefix of some suffix. -/
def isInfixList (needle : List Char) : List Char → Bool
  | [] => needle.isEmpty
  | c :: rest => isPrefixList needle (c :: rest) || isInfixList needle rest

/-- Substring test, modelling the Python expression `sub in line`. -/
def contains_sub (needle hay : String) : Bool :=
  isInfixList needle.toList hay.toList

/-- Helper for `pySplit`: walks the characters, accumulating the current
(reversed) token, emitting a token at each whitespace run. -/
def splitWsAux : List Char → List Char → List String
  | [], [] => []
  | [], cur => [cur.reverse.asString]
  | c :: rest, cur =>
    if c.isWhitespace then
      match cur with
      | [] => splitWsAux rest []
      | _ => cur.reverse.asString :: splitWsAux rest []
    else splitWsAux rest (c :: cur)

/-- Python `line.split()`: split on whitespace runs, dropping empty tokens. -/
def pySplit (s : String) : List String :=
  splitWsAux s.toList []

/-- Split a character list at every occurrence of `sep`, keeping empty
chunks, as Python `str.split(sep)` does. -/
def splitCharAux (sep : Char) : List Char → List Char → List (List Char)
  | [], cur => [cur.reverse]
  | c :: rest, cur =>
    if c = sep then cur.reverse :: splitCharAux sep rest []
    else splitCharAux sep rest (c :: cur)

/-- Reads a digit string as a natural number; `none` if a non-digit occurs. -/
def digitsToNat (cs : List Char) : Option Nat :=
  cs.foldl
    (fun acc c =>
      match acc with
      | none => none
      | some n => if c.isDigit then some (n * 10 + (c.toNat - 48)) else none)
    (some 0)

/-- Unsigned decimal numeral, integer part and optional fraction part. -/
def parseUnsigned (cs : List Char) : Option ℚ :=
  match splitCharAux '.' cs [] with
  | [ip] =>
    if ip.isEmpty then none
    else (digitsToNat ip).map (fun n => (n : ℚ))
  | [ip, fp] =>
    if ip.isEmpty && fp.isEmpty then none
    else
      match digitsToNat ip, digitsToNat fp with
      | some i, some f => some ((i : ℚ) + (f : ℚ) / (10 : ℚ) ^ fp.length)
      | _, _ => none
  | _ => none

/-- Models Python `float(tok)` on the plain decimal numerals the silence
filter emits (optional sign, digits, optional fraction). -/
def parseDecimal (s : String) : Option ℚ :=
  match s.toList with
  | '-' :: rest => (parseUnsigned rest).map (fun q => -q)
  | cs => parseUnsigned cs

/-- Models `parts = line.split(); parts[parts.index(tok) + 1]`. -/
def token_after (tok line : String) : Option String :=
  let parts := pySplit line
  match parts.findIdx? (fun t => t == tok) with
  | some i => parts.get? (i + 1)
  | none => none

/-- The timestamp the scanner reads off a marker line: the token following
the marker, parsed as a decimal number. -/
def parse_time_after (tok line : String) : Option ℚ :=
  (token_after tok line).bind parseDecimal

/-- The line-scanning loop of find_silent_periods: `pending` is the mutable
`start_time` variable, `acc` the `silence_periods` list.  A line is examined
only if it mentions silencedetect; a start marker overwrites the pending
start; an end marker emits a period when a pending start exists. -/
def scan_lines : List String → Option ℚ → List SilencePeriod → List SilencePeriod
  | [], _, acc => acc
  | line :: rest, pending, acc =>
    if contains_sub "silencedetect" line then
      if contains_sub "silence_start:" line then
        match parse_time_after "silence_start:" line with
        | some t => scan_lines rest (some t) acc
        | none => scan_lines rest pending acc
      else if contains_sub "silence_end:" line then
        match pending with
        | some s =>
          match parse_time_after "silence_end:" line with
          | some e => scan_lines rest none (acc ++ [⟨s, e⟩])
          | none => scan_lines rest pending acc
        | none => scan_lines rest pending acc
      else scan_lines rest pending acc
    else scan_lines rest pending acc

/-- find_silent_periods: the engine either fails (`none`, the caught
CalledProcessError, returning the sentinel) or yields its diagnostic lines,
which the scanning loop folds into silence periods. -/
def find_silent_periods (engine_diag : Option (List String)) :
    Option (List SilencePeriod) :=
  engine_diag.map (fun lines => scan_lines lines none [])

/-- The classification of one diagnostic line, as the specification describes
the detector: a silence-start marker carrying a time, a silence-end marker
carrying a time, or anything else. -/
inductive SilenceMarker where
  | startMark (t : ℚ)
  | endMark (t : ℚ)
  | other

/-- Classifier matching the scanner's guards: only silencedetect lines count,
start markers take precedence, and a marker whose timestamp cannot be read is
treated as inert. -/
def classify_line (line : String) : SilenceMarker :=
  if contains_sub "silencedetect" line then
    if contains_sub "silence_start:" line then
      match parse_time_after "silence_start:" line with
      | some t => SilenceMarker.startMark t
      | none => SilenceMarker.other
    else if contains_sub "silence_end:" line then
      match parse_time_after "silence_end:" line with
      | some t => SilenceMarker.endMark t
      | none => SilenceMarker.other
    else SilenceMarker.other
  else SilenceMarker.other

/-- The planner loop of segment_audio: walks the silence periods with the
running `segment_start` cursor, cutting at a silence end whenever the segment
so far reaches 80 percent of the target length.  Returns the cut segments and
the final cursor. -/
def segLoop (L : ℚ) : ℚ → List SilencePeriod → List (ℚ × ℚ) × ℚ
  | c, [] => ([], c)
  | c, s :: rest =>
    if L * 0.8 ≤ s.stop - c then
      ((c, s.stop) :: (segLoop L s.stop rest).1, (segLoop L s.stop rest).2)
    else segLoop L c rest

/-- The segment plan built by segment_audio: the loop's cut segments, then a
final segment up to the duration when the cursor stops short of it. -/
def segment_plan (silence_periods : List SilencePeriod) (D L : ℚ) :
    List (ℚ × ℚ) :=
  (segLoop L 0 silence_periods).1 ++
    (if (segLoop L 0 silence_periods).2 < D
     then [((segLoop L 0 silence_periods).2, D)]
     else [])

/-- The greedy threshold-cut algorithm exactly as the specification words it:
cursor starts at 0; each silence in order is a cut point when its end lies at
least 0.8 times the target beyond the cursor; a final interval to the
duration is appended when the cursor is short of it. -/
def planner_spec_go (D L : ℚ) : ℚ → List SilencePeriod → List (ℚ × ℚ)
  | cursor, [] => if cursor < D then [(cursor, D)] else []
  | cursor, s :: rest =>
    if 0.8 * L ≤ s.stop - cursor
    then (cursor, s.stop) :: planner_spec_go D L s.stop rest
    else planner_spec_go D L cursor rest

/-- The specification's planner, started at cursor 0. -/
def planner_spec (silences : List SilencePeriod) (D L : ℚ) : List (ℚ × ℚ) :=
  planner_spec_go D L 0 silences

/-- Decimal digits of a natural number, least significant first, driven by
explicit fuel so that it is structurally recursive. -/
def natDigitsRev : Nat → Nat → List Nat
  | 0, _ => []
  | _ + 1, 0 => []
  | f + 1, n + 1 => (n + 1) % 10 :: natDigitsRev f ((n + 1) / 10)

/-- Python `str(n)` for a natural number. -/
def pyStrNat (n : Nat) : String :=
  if n = 0 then "0"
  else ((natDigitsRev n n).reverse.map (fun d => Char.ofNat (48 + d))).asString

/-- Python `str(n)` for an integer. -/
def pyStrInt (n : Int) : String :=
  if n < 0 then "-" ++ pyStrNat n.natAbs else pyStrNat n.natAbs

/-- Rendering of a rational time value for the engine command line; whole
numbers print as Python integers do, the exact text of fractional values is
immaterial to the claims and uses a canonical form. -/
def pyStrRat (q : ℚ) : String :=
  if q.den = 1 then pyStrInt q.num
  else pyStrInt q.num ++ "/" ++ pyStrNat q.den

/-- Python format spec `0{w}d`: pad with leading zeros up to width `w`. -/
def zfill (s : String) (w : Nat) : String :=
  if s.length < w then (List.replicate (w - s.length) '0').asString ++ s else s

/-- The output basename the writer loop formats for the segment with 1-based
index `idx` out of `n` planned segments. -/
def segment_filename (n idx : Nat) : String :=
  zfill (pyStrNat idx) (pyStrNat n).length ++ ".mp3"

/-- The output basenames for a plan of `n` segments, in write order. -/
def segment_filenames (n : Nat) : List String :=
  (List.range n).map (fun i => segment_filename n (i + 1))

/-- Python os.path.join for two components. -/
def os_path_join (a b : String) : String :=
  if b.toList.head? = some '/' then b
  else if a.isEmpty then b
  else if a.toList.getLast? = some '/' then a ++ b
  else a ++ "/" ++ b

/-- Python os.path.basename: the part after the final slash. -/
def os_path_basename (p : String) : String :=
  (((splitCharAux '/' p.toList []).getLast?).getD []).asString

/-- Root part of Python os.path.splitext on a basename: everything before the
last dot, where leading dots never count as an extension separator. -/
def splitext_root (name : String) : String :=
  let cs := name.toList
  let lead := (cs.takeWhile (fun c => c = '.')).length
  let rest := cs.drop lead
  match rest.reverse.findIdx? (fun c => c = '.') with
  | none => name
  | some k => (cs.take (lead + (rest.length - 1 - k))).asString

/-- The engine command create_segment builds.  The end time is rendered with
Python str, so an absent end time becomes the literal text None. -/
def create_segment_command (input_file output_file : String) (start_time : ℚ)
    (end_time : Option ℚ) : List String :=
  [ "ffmpeg",
    "-ss", pyStrRat start_time,
    "-to", (match end_time with | some t => pyStrRat t | none => "None"),
    "-i", input_file,
    "-c:a", "libmp3lame",
    "-y", output_file]

/-- One invocation of the segment writer: which engine command runs for which
planned range. -/
structure WriteCall where
  infile : String
  outfile : String
  start : ℚ
  stop : Option ℚ

/-- create_segment's result: the engine behaviour decides success, a nonzero
exit is caught and reported and the function returns failure. -/
def create_segment (eng : List String → Bool) (input_file output_file : String)
    (start_time : ℚ) (end_time : Option ℚ) : Bool :=
  eng (create_segment_command input_file output_file start_time end_time)

/-- The writer loop of segment_audio: each planned call is attempted in
order; the Bool result of create_segment is recorded but never consulted for
control flow, exactly as the source discards it. -/
def write_segments (eng : List String → Bool) : List WriteCall → List Bool
  | [] => []
  | c :: rest =>
    create_segment eng c.infile c.outfile c.start c.stop :: write_segments eng rest

/-- The sequence of writer invocations segment_audio issues, as a function of
the detection outcome, the probed duration `D` and the target length `L`.
When detection returned the sentinel, a single whole-file segment is written
to the (defectively joined) fallback path; otherwise the plan's segments are
written to zero-padded numbered files. -/
def segment_audio_calls (input_file output_dir : String) (L : ℚ)
    (detected : Option (List SilencePeriod)) (D : ℚ) : List WriteCall :=
  let filename := splitext_root (os_path_basename input_file)
  let output_subdir := os_path_join output_dir filename
  match detected with
  | none =>
    [⟨input_file, os_path_join (os_path_join output_subdir input_file) ".mp3",
      0, some D⟩]
  | some silence_periods =>
    let segments := segment_plan silence_periods D L
    let n := segments.length
    segments.enum.map
      (fun pr =>
        ⟨input_file, os_path_join output_subdir (segment_filename n (pr.1 + 1)),
         pr.2.1, some pr.2.2⟩)

/-- The intervals `xs` chain from cursor `a` to cursor `b`: each interval
starts where the previous one ended. -/
def Linked : ℚ → List (ℚ × ℚ) → ℚ → Prop
  | a, [], b => b = a
  | a, p :: rest, b => p.1 = a ∧ Linked p.2 rest b

lemma linked_append {a b c : ℚ} :
    ∀ {xs ys : List (ℚ × ℚ)}, Linked a xs b → Linked b ys c → Linked a (xs ++ ys) c := by
  intro xs
  induction xs generalizing a with
  | nil =>
    intro ys h1 h2
    cases h1
    simpa using h2
  | cons p rest ih =>
    intro ys h1 h2
    exact ⟨h1.1, ih h1.2 h2⟩

lemma linked_chain {a b : ℚ} :
    ∀ {xs : List (ℚ × ℚ)}, Linked a xs b →
      List.Chain' (fun p q : ℚ × ℚ => p.2 = q.1) xs := by
  intro xs
  induction xs generalizing a with
  | nil => intro _; simp
  | cons p rest ih =>
    intro h
    cases rest with
    | nil => simp
    | cons q tail =>
      exact List.chain'_cons.2 ⟨h.2.1.symm, ih h.2⟩

lemma linked_head {a b : ℚ} {xs : List (ℚ × ℚ)} (h : Linked a xs b)
    (hne : xs ≠ []) : xs.head?.map Prod.fst = some a := by
  cases xs with
  | nil => exact absurd rfl hne
  | cons p rest => simp [h.1]

lemma linked_last {a b : ℚ} :
    ∀ {xs : List (ℚ × ℚ)}, Linked a xs b → xs ≠ [] →
      xs.getLast?.map Prod.snd = some b := by
  intro xs
  induction xs generalizing a with
  | nil => intro _ hne; exact absurd rfl hne
  | cons p rest ih =>
    intro h _
    cases rest with
    | nil =>
      cases h.2
      simp
    | cons q tail =>
      rw [List.getLast?_cons_cons]
      exact ih h.2 (by simp)

lemma segLoop_linked (L : ℚ) :
    ∀ (ss : List SilencePeriod) (c : ℚ),
      Linked c (segLoop L c ss).1 (segLoop L c ss).2 := by
  intro ss
  induction ss with
  | nil => intro c; exact rfl
  | cons s rest ih =>
    intro c
    by_cases h : L * 0.8 ≤ s.stop - c <;> simp only [segLoop, if_pos, if_neg, h, if_true, if_false, ite_true, ite_false]
    · exact ⟨rfl, ih s.stop⟩
    · exact ih c

lemma segLoop_mem_bound (L : ℚ) :
    ∀ (ss : List SilencePeriod) (c : ℚ) (p : ℚ × ℚ),
      p ∈ (segLoop L c ss).1 → L * 0.8 ≤ p.2 - p.1 := by
  intro ss
  induction ss with
  | nil => intro c p hp; simp [segLoop] at hp
  | cons s rest ih =>
    intro c p hp
    by_cases h : L * 0.8 ≤ s.stop - c
    · simp only [segLoop, h, ite_true, List.mem_cons] at hp
      rcases hp with rfl | hp
      · exact h
      · exact ih s.stop p hp
    · simp only [segLoop, h, ite_false] at hp
      exact ih c p hp

lemma segLoop_cursor_le (L D : ℚ) :
    ∀ (ss : List SilencePeriod) (c : ℚ),
      (∀ s ∈ ss, s.stop ≤ D) → c ≤ D → (segLoop L c ss).2 ≤ D := by
  intro ss
  induction ss with
  | nil => intro c _ hc; exact hc
  | cons s rest ih =>
    intro c hs hc
    by_cases h : L * 0.8 ≤ s.stop - c <;> simp only [segLoop, h, ite_true, ite_false]
    · exact ih s.stop (fun t ht => hs t (List.mem_cons_of_mem s ht))
        (hs s (List.mem_cons_self s rest))
    · exact ih c (fun t ht => hs t (List.mem_cons_of_mem s ht)) hc

lemma segLoop_nil_cursor (L : ℚ) (ss : List SilencePeriod) (c : ℚ)
    (h : (segLoop L c ss).1 = []) : (segLoop L c ss).2 = c := by
  have hl := segLoop_linked L ss c
  rw [h] at hl
  exact hl

lemma natDigitsRev_zero (f : Nat) : natDigitsRev f 0 = [] := by
  cases f <;> rfl

lemma natDigitsRev_eq_digits :
    ∀ (fuel n : Nat), n ≤ fuel → natDigitsRev fuel n = Nat.digits 10 n
  | f, 0, _ => by rw [natDigitsRev_zero]; simp
  | 0, n + 1, h => absurd h (by omega)
  | f + 1, n + 1, h => by
    have hdiv : (n + 1) / 10 ≤ f := by
      have := Nat.div_lt_self (Nat.succ_pos n) (by norm_num : 1 < 10)
      omega
    rw [natDigitsRev, natDigitsRev_eq_digits f ((n + 1) / 10) hdiv,
      Nat.digits_def' (by norm_num : 1 < 10) (Nat.succ_pos n)]

lemma asString_length (cs : List Char) : (cs.asString).length = cs.length := rfl

lemma pyStrNat_length (n : Nat) (hn : n ≠ 0) :
    (pyStrNat n).length = Nat.log 10 n + 1 := by
  rw [pyStrNat, if_neg hn, asString_length, List.length_map, List.length_reverse,
    natDigitsRev_eq_digits n n le_rfl,
    Nat.digits_len 10 n (by norm_num) hn]

lemma zfill_length (s : String) (w : Nat) :
    (zfill s w).length = max w s.length := by
  rw [zfill]
  split
  · rw [String.length_append, asString_length, List.length_replicate]
    omega
  · omega

lemma segLoop_planner_spec (D L : ℚ) :
    ∀ (ss : List SilencePeriod) (c : ℚ),
      (segLoop L c ss).1 ++
          (if (segLoop L c ss).2 < D then [((segLoop L c ss).2, D)] else [])
        = planner_spec_go D L c ss := by
  intro ss
  induction ss with
  | nil => intro c; simp [segLoop, planner_spec_go]
  | cons s rest ih =>
    intro c
    by_cases h : L * 0.8 ≤ s.stop - c
    · have h' : 0.8 * L ≤ s.stop - c := by rwa [mul_comm] at h
      simp only [segLoop, planner_spec_go, h, h', ite_true, List.cons_append]
      rw [ih s.stop]
    · have h' : ¬ 0.8 * L ≤ s.stop - c := by rwa [mul_comm] at h
      simp only [segLoop, planner_spec_go, h, h', ite_false]
      exact ih c

/-- C1: the segment planner is the greedy threshold-cut algorithm: starting
with cursor 0, each silence in detection order becomes a cut appending
Interval(cursor, silence.end) and moving the cursor there exactly when
silence.end - cursor is at least 0.8 times the target length; after all
silences a final Interval(cursor, D) is appended if and only if cursor < D. -/
theorem planner_is_greedy_threshold_cut (silences : List SilencePeriod)
    (D L : ℚ) : segment_plan silences D L = planner_spec silences D L :=
  segLoop_planner_spec D L silences 0

/-- C9: whenever the target length is strictly positive, every interval of
the plan has strictly positive length, for any silence sequence and any
duration. -/
theorem planner_segments_positive (silences : List SilencePeriod) (D L : ℚ)
    (hL : 0 < L) : ∀ p ∈ segment_plan silences D L, p.1 < p.2 := by
  intro p hp
  have h08 : (0 : ℚ) < L * 0.8 := mul_pos hL (by norm_num)
  rw [segment_plan] at hp
  rcases List.mem_append.1 hp with h | h
  · have := segLoop_mem_bound L silences 0 p h
    linarith
  · by_cases hlt : (segLoop L 0 silences).2 < D
    · rw [if_pos hlt] at h
      simp only [List.mem_singleton] at h
      subst h
      exact hlt
    · rw [if_neg hlt] at h
      simp at h

/-- Witness for C9 at the empty silence list, duration 5, target 1: the only
planned interval is (0, 5), whose length is positive. -/
theorem planner_segments_positive_witness : (0 : ℚ) < 5 :=
  planner_segments_positive [] 5 1 (by norm_num) (0, 5)
    (by norm_num [segment_plan, segLoop])

/-- Counterexample to C2 as stated: with the single silence (0, 240),
duration 100 and target 300, the cut overshoots the duration and the last
planned interval ends at 240, not at D = 100. -/
theorem planner_tiling_counterexample :
    (segment_plan [⟨0, 240⟩] 100 300).getLast?.map Prod.snd = some 240 ∧
      (240 : ℚ) ≠ 100 := by
  constructor
  · norm_num [segment_plan, segLoop]
  · norm_num

/-- C2 (amended): when the target length and the duration are positive and
every detected silence ends within the file, the plan tiles `[0, D]`: it is
nonempty, its first interval starts at 0, its last interval ends at D,
consecutive intervals share their boundary, and no interval runs backwards. -/
theorem planner_tiles_interval (silences : List SilencePeriod) (D L : ℚ)
    (hL : 0 < L) (hD : 0 < D) (hs : ∀ s ∈ silences, s.stop ≤ D) :
    segment_plan silences D L ≠ [] ∧
      (segment_plan silences D L).head?.map Prod.fst = some 0 ∧
      (segment_plan silences D L).getLast?.map Prod.snd = some D ∧
      List.Chain' (fun p q : ℚ × ℚ => p.2 = q.1) (segment_plan silences D L) ∧
      ∀ p ∈ segment_plan silences D L, p.1 ≤ p.2 := by
  have hlink := segLoop_linked L silences 0
  have hle : (segLoop L 0 silences).2 ≤ D :=
    segLoop_cursor_le L D silences 0 hs hD.le
  have h08 : (0 : ℚ) < L * 0.8 := mul_pos hL (by norm_num)
  by_cases hlt : (segLoop L 0 silences).2 < D
  · have hplan : segment_plan silences D L =
        (segLoop L 0 silences).1 ++ [((segLoop L 0 silences).2, D)] := by
      rw [segment_plan, if_pos hlt]
    have hlink2 : Linked 0 (segment_plan silences D L) D := by
      rw [hplan]
      exact linked_append hlink ⟨rfl, rfl⟩
    have hne : segment_plan silences D L ≠ [] := by
      rw [hplan]; simp
    refine ⟨hne, linked_head hlink2 hne, linked_last hlink2 hne,
      linked_chain hlink2, ?_⟩
    intro p hp
    rw [hplan] at hp
    rcases List.mem_append.1 hp with h | h
    · have := segLoop_mem_bound L silences 0 p h
      linarith
    · simp only [List.mem_singleton] at h
      subst h
      exact hle
  · have hc : (segLoop L 0 silences).2 = D := le_antisymm hle (not_lt.1 hlt)
    have hplan : segment_plan silences D L = (segLoop L 0 silences).1 := by
      rw [segment_plan, if_neg hlt, List.append_nil]
    have hne2 : (segLoop L 0 silences).1 ≠ [] := by
      intro h0
      have h2 := segLoop_nil_cursor L silences 0 h0
      rw [h2] at hc
      exact (ne_of_gt hD) hc.symm
    have hlink2 : Linked 0 (segment_plan silences D L) D := by
      rw [hplan, ← hc]
      exact hlink
    have hne : segment_plan silences D L ≠ [] := by
      rw [hplan]; exact hne2
    refine ⟨hne, linked_head hlink2 hne, linked_last hlink2 hne,
      linked_chain hlink2, ?_⟩
    intro p hp
    rw [hplan] at hp
    have := segLoop_mem_bound L silences 0 p hp
    linarith

/-- Witness for the amended C2: one silence ending at 250 inside a 300 second
file with target 300 yields a nonempty plan whose last interval ends at the
duration. -/
theorem planner_tiles_interval_witness :
    segment_plan [⟨100, 250⟩] 300 300 ≠ [] ∧
      (segment_plan [⟨100, 250⟩] 300 300).getLast?.map Prod.snd = some 300 := by
  have h := planner_tiles_interval [⟨100, 250⟩] 300 300 (by norm_num)
    (by norm_num)
    (by
      intro s hs
      rw [List.mem_singleton] at hs
      subst hs
      norm_num)
  exact ⟨h.1, h.2.2.1⟩

/-- Counterexample to C6 as stated: with the silence (100, 240), duration 240
and target 300 the cut lands exactly at the duration, and the plan is the
single interval (0, 240): no zero-length trailing interval is present. -/
theorem planner_exact_cut_counterexample :
    segment_plan [⟨100, 240⟩] 240 300 = [((0 : ℚ), (240 : ℚ))] ∧
      ((240 : ℚ), (240 : ℚ)) ∉ segment_plan [⟨100, 240⟩] 240 300 := by
  have h : segment_plan [⟨100, 240⟩] 240 300 = [((0 : ℚ), (240 : ℚ))] := by
    norm_num [segment_plan, segLoop]
  refine ⟨h, ?_⟩
  rw [h]
  norm_num

/-- C6 (amended): every non-final planned segment spans at least 0.8 times
the target length up to its silence-end cut; and when a cut lands exactly on
the total duration, no trailing segment is appended at all - the plan is
exactly the list of cut segments, so the last of them ends at the duration. -/
theorem planner_nonfinal_bound (silences : List SilencePeriod) (D L : ℚ) :
    (∀ p ∈ (segment_plan silences D L).dropLast, L * 0.8 ≤ p.2 - p.1) ∧
      ((segLoop L 0 silences).2 = D →
        segment_plan silences D L = (segLoop L 0 silences).1) := by
  constructor
  · intro p hp
    refine segLoop_mem_bound L silences 0 p ?_
    by_cases hlt : (segLoop L 0 silences).2 < D
    · rw [segment_plan, if_pos hlt, List.dropLast_concat] at hp
      exact hp
    · rw [segment_plan, if_neg hlt, List.append_nil] at hp
      exact List.dropLast_subset _ hp
  · intro h
    rw [segment_plan, if_neg (by rw [h]; exact lt_irrefl D), List.append_nil]

/-- Witness for the amended C6: two silences cut at 240 and at 480 = D; the
plan equals the cut list, no trailing interval, and the first cut spans at
least 0.8 times the target. -/
theorem planner_nonfinal_bound_witness :
    segment_plan [⟨0, 240⟩, ⟨400, 480⟩] 480 300 =
        (segLoop 300 0 [⟨0, 240⟩, ⟨400, 480⟩]).1 ∧
      (300 : ℚ) * 0.8 ≤ 240 - 0 := by
  have h := planner_nonfinal_bound [⟨0, 240⟩, ⟨400, 480⟩] 480 300
  refine ⟨h.2 (by norm_num [segLoop]), ?_⟩
  have hm := h.1 ((0 : ℚ), (240 : ℚ))
    (by norm_num [segment_plan, segLoop, List.dropLast])
  simpa using hm

/-- C3: the detector pairs markers through the single pending-start state: a
start marker records (overwriting) the pending start; an end marker emits
Interval(pending, end) and clears the pending start exactly when one exists
and is ignored otherwise; and a pending start left at the end of the stream
produces no interval - the accumulated list is returned as is. -/
theorem silence_detector_pairing :
    (∀ (line : String) (rest : List String) (pending : Option ℚ)
        (acc : List SilencePeriod),
      scan_lines (line :: rest) pending acc =
        match classify_line line, pending with
        | SilenceMarker.startMark t, _ => scan_lines rest (some t) acc
        | SilenceMarker.endMark e, some s =>
            scan_lines rest none (acc ++ [⟨s, e⟩])
        | SilenceMarker.endMark _, none => scan_lines rest none acc
        | SilenceMarker.other, p => scan_lines rest p acc) ∧
      ∀ (pending : Option ℚ) (acc : List SilencePeriod),
        scan_lines [] pending acc = acc := by
  constructor
  · intro line rest pending acc
    by_cases h1 : contains_sub "silencedetect" line = true
    · by_cases h2 : contains_sub "silence_start:" line = true
      · cases hp : parse_time_after "silence_start:" line <;>
          simp [scan_lines, classify_line, h1, h2, hp]
      · by_cases h3 : contains_sub "silence_end:" line = true
        · cases pending <;> cases hp : parse_time_after "silence_end:" line <;>
            simp [scan_lines, classify_line, h1, h2, h3, hp]
        · simp [scan_lines, classify_line, h1, h2, h3]
    · simp [scan_lines, classify_line, h1]
  · intro pending acc
    rfl

/-- C10: a diagnostic line not containing the substring silencedetect is
skipped entirely: the scan continues with the same pending start and the same
accumulated list, whatever else the line contains. -/
theorem non_silencedetect_line_skipped (line : String) (rest : List String)
    (pending : Option ℚ) (acc : List SilencePeriod)
    (h : contains_sub "silencedetect" line = false) :
    scan_lines (line :: rest) pending acc = scan_lines rest pending acc := by
  simp [scan_lines, h]

/-- Witness for C10: a line that does contain silence_start: but not
silencedetect leaves the pending start and the result unchanged. -/
theorem non_silencedetect_line_skipped_witness :
    scan_lines [ "silence_start: 1.5"] (some 7) [⟨1, 2⟩] = [⟨1, 2⟩] :=
  (non_silencedetect_line_skipped "silence_start: 1.5" [] (some 7) [⟨1, 2⟩]
    (by rfl)).trans rfl

/-- C4 (recording the defect): with the end time absent, the command built by
create_segment still carries a -to option, whose value is the literal text
None - a bogus end bound, not an extraction to the end of the file. -/
theorem create_segment_command_none_bogus_end (input_file output_file : String)
    (start_time : ℚ) :
    create_segment_command input_file output_file start_time none =
      [ "ffmpeg", "-ss", pyStrRat start_time, "-to", "None", "-i", input_file,
        "-c:a", "libmp3lame", "-y", output_file] := rfl

/-- C5: a failed detection invocation yields the sentinel, and on the
sentinel segment_audio bypasses the planner and issues exactly one write
covering the range from 0 to the total duration (to the defectively joined
fallback output path). -/
theorem detection_failure_whole_file (input_file output_dir : String)
    (L D : ℚ) :
    find_silent_periods none = none ∧
      segment_audio_calls input_file output_dir L (find_silent_periods none) D =
        [⟨input_file,
          os_path_join
            (os_path_join
              (os_path_join output_dir
                (splitext_root (os_path_basename input_file)))
              input_file)
            ".mp3",
          0, some D⟩] :=
  ⟨rfl, rfl⟩

/-- C7: the writer loop attempts every planned segment in order for any
engine behaviour whatsoever - a failure never aborts the loop - and
create_segment returns failure whenever its engine command fails. -/
theorem create_segment_failure_no_abort (eng : List String → Bool)
    (calls : List WriteCall) :
    write_segments eng calls =
        calls.map
          (fun c => create_segment eng c.infile c.outfile c.start c.stop) ∧
      ∀ (i o : String) (s : ℚ) (e : Option ℚ),
        eng (create_segment_command i o s e) = false →
          create_segment eng i o s e = false := by
  constructor
  · induction calls with
    | nil => rfl
    | cons c rest ih => simp [write_segments, ih]
  · intro i o s e h
    simpa [create_segment] using h

/-- Witness for C7: with an engine that fails every invocation, both planned
segments are still attempted (two results, both failures). -/
theorem create_segment_failure_no_abort_witness :
    write_segments (fun _ => false)
        [⟨ "a.m4a", "1.mp3", 0, some 1⟩, ⟨ "a.m4a", "2.mp3", 1, none⟩] =
      [false, false] ∧
      create_segment (fun _ => false) "a.m4a" "1.mp3" 0 (some 1) = false := by
  have h := create_segment_failure_no_abort (fun _ => false)
    [⟨ "a.m4a", "1.mp3", 0, some 1⟩, ⟨ "a.m4a", "2.mp3", 1, none⟩]
  exact ⟨h.1.trans rfl, h.2 "a.m4a" "1.mp3" 0 (some 1) rfl⟩

/-- C8: for N planned segments the output basenames are the indices 1..N in
order, each zero-padded to the width of N's decimal representation; that
width is exactly the decimal digit count of N, characterized by the power
bounds 10^(w-1) <= N < 10^w. -/
theorem segment_numbering (N j : Nat) (h1 : 1 ≤ j) (h2 : j ≤ N) :
    (segment_filenames N).length = N ∧
      (segment_filenames N).get? (j - 1) = some (segment_filename N j) ∧
      segment_filename N j = zfill (pyStrNat j) (pyStrNat N).length ++ ".mp3" ∧
      (zfill (pyStrNat j) (pyStrNat N).length).length = (pyStrNat N).length ∧
      10 ^ ((pyStrNat N).length - 1) ≤ N ∧ N < 10 ^ (pyStrNat N).length := by
  have hN : N ≠ 0 := by omega
  have hj : j ≠ 0 := by omega
  have hlenN := pyStrNat_length N hN
  have hlenj := pyStrNat_length j hj
  refine ⟨?_, ?_, rfl, ?_, ?_, ?_⟩
  · simp [segment_filenames]
  · have hjN : j - 1 < N := by omega
    rw [segment_filenames, List.get?_eq_getElem?, List.getElem?_map,
      List.getElem?_range hjN]
    have hsucc : j - 1 + 1 = j := by omega
    simp [hsucc]
  · rw [zfill_length, hlenN, hlenj]
    have : Nat.log 10 j ≤ Nat.log 10 N := Nat.log_mono_right h2
    omega
  · rw [hlenN]
    simpa using Nat.pow_log_le_self 10 hN
  · rw [hlenN]
    exact Nat.lt_pow_succ_log_self (by norm_num) N

/-- Witness for C8 at N = 10, j = 2: ten filenames, the second of which is
02.mp3 - zero-padded to width 2, the digit count of 10. -/
theorem segment_numbering_witness :
    (segment_filenames 10).length = 10 ∧
      (segment_filenames 10).get? 1 = some "02.mp3" := by
  have h := segment_numbering 10 2 (by norm_num) (by norm_num)
  exact ⟨h.1, h.2.1.trans (by rfl)⟩
